import Mathlib

/-!
# glvd/starship: peer-address gossip and hash gossip

A shallow embedding of `src/link/link.go` (package `link`) and
`src/linker/linker.go` (package `linker`).

Conventions of the embedding.

* Go `[]byte` and Go `string` are both byte sequences: `Bytes`.
* A Go `map[K]V` is a finite partial function `K → Option V`; reading an
  absent key gives the zero value where the source relies on it.
* The methods are embedded sequentially: a method that takes a lock, works on
  the map and releases the lock is one atomic state transformer.
* Calls into other libraries whose result the source only branches on
  (stream open, configuration load, JSON codec, `path.New`) are inputs of the
  embedded function.
-/

set_option autoImplicit false
set_option linter.dupNamespace false

/-- Go `byte`. -/
abbrev Byte := UInt8

/-- Go `[]byte`, and Go `string`. -/
abbrev Bytes := List Byte

/-- Go `map[K]V`. -/
abbrev GoMap (K V : Type) := K → Option V

namespace GoMap

variable {K V : Type} [DecidableEq K]

/-- The map made by `make(map[K]V)`. -/
def empty : GoMap K V := fun _ => none

/-- Assignment `m[k] = v`. -/
def set (m : GoMap K V) (k : K) (v : V) : GoMap K V :=
  fun k' => if k' = k then some v else m k'

/-- The two-valued read `_, b = m[k]`. -/
def has (m : GoMap K V) (k : K) : Bool := (m k).isSome

/-- The one-valued read `m[k]`, the zero value `z` for an absent key. -/
def getD (m : GoMap K V) (k : K) (z : V) : V := (m k).getD z

end GoMap

namespace multiaddr

/-- A `multiaddr.Multiaddr`, by its binary form (what `Equal` compares). -/
abbrev Multiaddr := Bytes

end multiaddr

namespace peer

/-- Go `type ID string`. -/
abbrev ID := Bytes

/-- Go `peer.AddrInfo`. -/
structure AddrInfo where
  ID : peer.ID
  Addrs : List multiaddr.Multiaddr
  deriving DecidableEq, Repr

end peer

/-- `var NewLine = []byte{'\n'}` (both packages). -/
def NewLine : Bytes := [10]

/-! ## Go's `bufio.Reader.ReadLine` (standard library), as the source uses it -/

namespace bufio

/-- `const defaultBufSize = 4096`: the buffer of `bufio.NewReader`. -/
def defaultBufSize : Nat := 4096

/-- The errors `ReadSlice` hands to `ReadLine`. -/
inductive Err where
  | EOF
  | ErrBufferFull
  deriving DecidableEq, Repr

/-- A `*bufio.Reader` over a stream: `pending` is every byte not yet consumed
(buffered or still to arrive), after which the stream reports its end (or a
read error, which `ReadLine` treats the same way). -/
structure Reader where
  pending : Bytes
  deriving DecidableEq, Repr

/-- `bufio.NewReader(s)`. -/
def NewReader (s : Bytes) : Reader := ⟨s⟩

/-- `ReadSlice('\n')`: up to and including the first newline when it lies in
the buffer; the unread rest with `EOF` when the stream ends first; a full
buffer with `ErrBufferFull` otherwise. -/
def Reader.ReadSlice (b : Reader) : Bytes × Option Err × Reader :=
  let window := b.pending.take defaultBufSize
  let i := (window.takeWhile (fun c => c != 10)).length
  if i < window.length then
    (b.pending.take (i + 1), none, ⟨b.pending.drop (i + 1)⟩)
  else if b.pending.length < defaultBufSize then
    (b.pending, some Err.EOF, ⟨[]⟩)
  else
    (b.pending.take defaultBufSize, some Err.ErrBufferFull, ⟨b.pending.drop defaultBufSize⟩)

/-- What `ReadLine` returns: `(line []byte, isPrefix bool, err error)`. -/
structure Line where
  line : Bytes
  more : Bool
  err : Option Err
  deriving DecidableEq, Repr

/-- `func (b *Reader) ReadLine() (line []byte, isPrefix bool, err error)`;
the field `more` is `isPrefix`. -/
def Reader.ReadLine (b : Reader) : Line × Reader :=
  match b.ReadSlice with
  | (line, some Err.ErrBufferFull, b') =>
    if line.getLast? = some 13 then
      (⟨line.dropLast, true, none⟩, ⟨13 :: b'.pending⟩)
    else
      (⟨line, true, none⟩, b')
  | (line, err, b') =>
    if line.length = 0 then
      (⟨[], false, err⟩, b')
    else if line.getLast? = some 10 then
      let drop := if line.length > 1 ∧ line.dropLast.getLast? = some 13 then 2 else 1
      (⟨line.take (line.length - drop), false, none⟩, b')
    else
      (⟨line, false, none⟩, b')

/-- Every line that successive `ReadLine` calls return before the first
error; `fuel` bounds the number of calls. -/
def Reader.linesAux : Nat → Reader → List Bytes
  | 0, _ => []
  | fuel + 1, b =>
    match b.ReadLine with
    | (⟨_, _, some _⟩, _) => []
    | (⟨line, _, none⟩, b') => line :: Reader.linesAux fuel b'

/-- Every line `ReadLine` returns before the first error (each successful
call consumes a byte, so `pending.length + 1` calls are enough). -/
def Reader.lines (b : Reader) : List Bytes :=
  Reader.linesAux (b.pending.length + 1) b

end bufio

/-- Go `error`: made here by `errors.New`, or handed back by another library. -/
inductive error where
  | New (text : String)
  | foreign (text : String)
  deriving DecidableEq, Repr

/-- `(*peer.AddrInfo).UnmarshalJSON` of go-libp2p-core, an input of the
embedding: the receiver before the call and the line give the receiver after
it, or the call fails. -/
abbrev UnmarshalJSON := peer.AddrInfo → Bytes → Option peer.AddrInfo

/-- A small decoder for examples, in the place of `UnmarshalJSON`: the first
byte of a line is the identity, the other bytes are one address, appended to
the receiver's. -/
def demoUnmarshalJSON : UnmarshalJSON := fun r line =>
  match line with
  | [] => none
  | b :: bs => some ⟨[b], r.Addrs ++ [bs]⟩

/-- `peer.AddrInfo.MarshalJSON` of go-libp2p-core, an input of the embedding. -/
abbrev MarshalJSON := peer.AddrInfo → Bytes

/-- `peer.AddrInfo{}`. -/
def peer.AddrInfo.zero : peer.AddrInfo := ⟨[], []⟩

/-! ## Package `link` (src/link/link.go) -/

namespace link

/-- The fields of `type link struct` that the methods below read or write:
`node.Identity` and the `addresses` map (guarded by `addressLock`). -/
structure link where
  Identity : peer.ID
  addresses : GoMap peer.ID peer.AddrInfo

/-- `New`: an empty address map. -/
def New (identity : peer.ID) : link :=
  { Identity := identity, addresses := GoMap.empty }

/-- `func (l *link) CheckPeerAddress(id peer.ID) (b bool)`. -/
def link.CheckPeerAddress (l : link) (id : peer.ID) : Bool :=
  l.addresses.has id

/-- `func (l *link) AddPeerAddress(id peer.ID, addrs peer.AddrInfo) (b bool)`:
a read under the read lock, then the re-read and the insert under the write
lock. -/
def link.AddPeerAddress (l : link) (id : peer.ID) (addrs : peer.AddrInfo) : Bool × link :=
  let b := l.addresses.has id
  if b then
    (!b, l)
  else
    let b := l.addresses.has id
    let l := if !b then { l with addresses := l.addresses.set id addrs } else l
    (!b, l)

/-- `func (l *link) AddAddress(id peer.ID, addrs peer.AddrInfo)`. -/
def link.AddAddress (l : link) (id : peer.ID) (addrs : peer.AddrInfo) : link :=
  { l with addresses := l.addresses.set id addrs }

/-- One call of an operation of the address cache. -/
inductive CacheOp where
  | check (id : peer.ID)
  | addPeer (id : peer.ID) (addrs : peer.AddrInfo)
  | add (id : peer.ID) (addrs : peer.AddrInfo)

/-- The cache after a call (`CheckPeerAddress` only reads the map). -/
def CacheOp.run (l : link) : CacheOp → link
  | .check _ => l
  | .addPeer id addrs => (l.AddPeerAddress id addrs).2
  | .add id addrs => l.AddAddress id addrs

/-- The `for` statement of `getPeerAddress`,
`for line, _, err := reader.ReadLine(); err == nil; { ... }`, entered with
`err == nil`: the init statement has run once, there is no post statement,
and the body declares an `err` of its own, so the condition stays true.
`none`: still in the loop after `fuel` iterations; `some l`: the body
returned. -/
def getPeerAddress.loop (unmarshal : UnmarshalJSON) (line : Bytes) :
    Nat → link → peer.AddrInfo → Option link
  | 0, _, _ => none
  | fuel + 1, l, ai =>
    match unmarshal ai line with
    | none => some l
    | some ai =>
      if ai.ID = l.Identity then
        getPeerAddress.loop unmarshal line fuel l ai
      else if l.CheckPeerAddress ai.ID then
        getPeerAddress.loop unmarshal line fuel l ai
      else
        getPeerAddress.loop unmarshal line fuel (l.AddPeerAddress ai.ID ai).2 ai

/-- `func (l *link) getPeerAddress(wg *sync.WaitGroup, pid peer.ID)`, run for
at most `fuel` iterations of its loop. `stream` is what `getStream` gave: the
bytes of the response, or an error. `some l`: the function returned (and the
deferred `wg.Done()` ran); `none`: it is still in the loop. -/
def link.getPeerAddress (unmarshal : UnmarshalJSON) (fuel : Nat) (l : link)
    (stream : Except error Bytes) : Option link :=
  match stream with
  | .error _ => some l
  | .ok s =>
    let reader := bufio.NewReader s
    let ai := peer.AddrInfo.zero
    match reader.ReadLine with
    | (⟨_, _, some _⟩, _) => some l
    | (⟨line, _, none⟩, _) => getPeerAddress.loop unmarshal line fuel l ai

end link


/-! ## Package `linker` (src/linker/linker.go) -/

/-- Go `int64`: an integer of the 64-bit two's-complement range. -/
structure Int64 where
  toInt : Int
  inRange : -9223372036854775808 ≤ toInt ∧ toInt < 9223372036854775808
  deriving DecidableEq

namespace Int64

/-- The value of the 64-bit two's-complement word congruent to `x`. -/
def wrap (x : Int) : Int :=
  (x + 9223372036854775808) % 18446744073709551616 - 9223372036854775808

/-- Conversion `int64(x)`. -/
def ofInt (x : Int) : Int64 := ⟨wrap x, by unfold wrap; omega⟩

/-- Go `a + b` on `int64`: the sum wraps around. -/
def add (a b : Int64) : Int64 := ofInt (a.toInt + b.toInt)

/-- The zero value of `int64`. -/
def zero : Int64 := ofInt 0

/-- The constant `1`. -/
def one : Int64 := ofInt 1

/-- `math.MaxInt64`. -/
def max : Int64 := ofInt 9223372036854775807

end Int64

namespace linker

/-- What a `PeerCache` (field `addresses`; its source is not under src/) offers
`link.UpdatePeerAddress`: the method `UpdatePeerAddress(ai) bool` as a
transformer of the cache `C`. -/
structure PeerCacheAPI (C : Type) where
  UpdatePeerAddress : C → peer.AddrInfo → Bool × C

/-- Modelled from the spec: the type `PeerCache` of package `linker`, whose
source is not under src/. Section 2: a map from peer identity to the known
record. -/
structure PeerCache where
  addresses : GoMap peer.ID peer.AddrInfo

/-- Modelled from the spec: `NewAddress`, whose source is not under src/; a
cache without entries. -/
def NewAddress : PeerCache := ⟨GoMap.empty⟩

/-- Modelled from the spec: `(*PeerCache).UpdatePeerAddress`, whose source is
not under src/. Section 4.6: "insert the candidate into PeerAddressCache via
AddIfAbsent; if the insert was novel (peer was previously unknown) ...";
section 4.1: "AddIfAbsent(id, record) -> bool (true if inserted)". -/
def PeerCache.UpdatePeerAddress (c : PeerCache) (ai : peer.AddrInfo) : Bool × PeerCache :=
  match c.addresses ai.ID with
  | some _ => (false, c)
  | none => (true, ⟨c.addresses.set ai.ID ai⟩)

/-- The spec's cache as a `PeerCacheAPI`. -/
def PeerCache.api : PeerCacheAPI PeerCache := ⟨PeerCache.UpdatePeerAddress⟩

/-- A cache that reports an update on every call (no state); an instance of
`PeerCacheAPI` for examples. -/
def alwaysUpdated : PeerCacheAPI Unit := ⟨fun c _ => (true, c)⟩

/-- What `path.New` and `Path.String` of interface-go-ipfs-core offer, for a
path type `P`. -/
structure PathAPI (P : Type) where
  New : Bytes → P
  String : P → Bytes

/-- `path.New` and `Path.String` of interface-go-ipfs-core, with
`ipfspath.ParsePath` of go-path as input (`none`: it returns an error):
`New(p)` keeps the string of the parsed path when `ParsePath(p)` succeeds and
`p` itself otherwise; `String` gives the kept string back. -/
def PathAPI.ofParsePath (ParsePath : Bytes → Option Bytes) : PathAPI Bytes :=
  ⟨fun p => (ParsePath p).getD p, fun p => p⟩

/-- The path library on the strings that `ParsePath` rejects (such as
`cidABC`, `bad!`, `Qm`): those are kept as given. -/
def PathAPI.raw : PathAPI Bytes := ⟨fun p => p, fun p => p⟩

/-- The content identifier `QmYwAPJzv5CZsnA625s3Xf2nemtYgPpHdWEz79ojWnPbdG`,
for examples. -/
def demoCid : Bytes :=
  [81, 109, 89, 119, 65, 80, 74, 122, 118, 53, 67, 90, 115, 110, 65, 54, 50, 53, 115, 51, 88,
    102, 50, 110, 101, 109, 116, 89, 103, 80, 112, 72, 100, 87, 69, 122, 55, 57, 111, 106, 87,
    110, 80, 98, 100, 71]

/-- `ParsePath` on the strings of the examples: the bare identifier `demoCid`
parses to `/ipfs/` followed by it; the other strings used (`cidABC`) do not
parse. -/
def demoParsePath : Bytes → Option Bytes := fun p =>
  if p = demoCid then some ([47, 105, 112, 102, 115, 47] ++ demoCid) else none

/-- The calls the embedded methods make on collaborators, in order:
`api.Swarm().Connect(ctx, ai)`, `l.hashes.Add(hash, id)` and
`l.pinning.AddSync(hash)`. -/
inductive Call where
  | Connect (ai : peer.AddrInfo)
  | hashesAdd (hash : Bytes) (id : peer.ID)
  | AddSync (hash : Bytes)
  deriving DecidableEq, Repr

/-- The fields of `type link struct` that the methods below read or write:
`node.Identity`, the `failedCount` map (guarded by `failedLock`) and the
`addresses` cache. -/
structure link (C : Type) where
  Identity : peer.ID
  failedCount : GoMap peer.ID Int64
  addresses : C

/-- `New`: an empty `failedCount` map. -/
def New {C : Type} (identity : peer.ID) (addresses : C) : link C :=
  { Identity := identity, failedCount := GoMap.empty, addresses := addresses }

/-- `func checkAddrIsExist(addrs []multiaddr.Multiaddr, addr multiaddr.Multiaddr) bool`. -/
def checkAddrIsExist (addrs : List multiaddr.Multiaddr) (addr : multiaddr.Multiaddr) : Bool :=
  addrs.any (fun a => addr == a)

/-- The `network.Stream` a handler is given: the remote end, the bytes
written so far, and how many more `Write` calls succeed (`none`: all). -/
structure Stream where
  RemotePeer : peer.ID
  RemoteMultiaddr : multiaddr.Multiaddr
  written : Bytes
  budget : Option Nat
  deriving DecidableEq, Repr

/-- `stream.Write(p)`: the error, and the stream after the call. -/
def Stream.Write (s : Stream) (p : Bytes) : Option error × Stream :=
  match s.budget with
  | some 0 => (some (error.foreign "write"), s)
  | some (n + 1) => (none, { s with written := s.written ++ p, budget := some n })
  | none => (none, { s with written := s.written ++ p })

/-- The parts of `core.IpfsNode` the peer-list handler reads or writes:
`Peerstore` (the addresses known per peer) and `PeerHost.Network().Peers()`
(the connected peers). -/
structure IpfsNode where
  Peerstore : GoMap peer.ID (List multiaddr.Multiaddr)
  Peers : List peer.ID

/-- `Peerstore.Addrs(id)`. -/
def IpfsNode.Addrs (n : IpfsNode) (id : peer.ID) : List multiaddr.Multiaddr :=
  n.Peerstore.getD id []

/-- `Peerstore.AddAddr(id, addr, ttl)`. -/
def IpfsNode.AddAddr (n : IpfsNode) (id : peer.ID) (addr : multiaddr.Multiaddr) : IpfsNode :=
  { n with Peerstore := n.Peerstore.set id (n.Addrs id ++ [addr]) }

/-- `Peerstore.PeerInfo(id)`. -/
def IpfsNode.PeerInfo (n : IpfsNode) (id : peer.ID) : peer.AddrInfo :=
  ⟨id, n.Addrs id⟩

/-- The `for _, peer := range peers` loop of the peer-list handler. -/
def newLinkPeersHandle.loop (marshal : MarshalJSON) (node : IpfsNode) :
    List peer.ID → Stream → Stream
  | [], stream => stream
  | peer :: peers, stream =>
    let info := node.PeerInfo peer
    let json := marshal info
    match stream.Write json with
    | (some _, stream) => stream
    | (none, stream) =>
      match stream.Write NewLine with
      | (some _, stream) => stream
      | (none, stream) => newLinkPeersHandle.loop marshal node peers stream

/-- The handler `newLinkPeersHandle` returns, run on a stream: the node and
the stream after it. -/
def newLinkPeersHandle (marshal : MarshalJSON) (node : IpfsNode) (stream : Stream) :
    IpfsNode × Stream :=
  let remoteID := stream.RemotePeer
  let node :=
    if !checkAddrIsExist (node.Addrs remoteID) stream.RemoteMultiaddr then
      node.AddAddr remoteID stream.RemoteMultiaddr
    else node
  let peers := node.Peers
  (node, newLinkPeersHandle.loop marshal node peers stream)

/-- The handler `newLinkHashHandle` returns, run on a stream; the argument
`pins` is what `l.pinning.Get()` gave. -/
def newLinkHashHandle : List Bytes → Stream → Stream
  | [], stream => stream
  | peer :: pins, stream =>
    match stream.Write peer with
    | (some _, stream) => stream
    | (none, stream) =>
      match stream.Write NewLine with
      | (some _, stream) => stream
      | (none, stream) => newLinkHashHandle pins stream

/-- `func (l *link) getAddCount(id peer.ID) int64`. -/
def link.getAddCount {C : Type} (l : link C) (id : peer.ID) : Int64 × link C :=
  let count := l.failedCount.getD id Int64.zero
  (count, { l with failedCount := l.failedCount.set id (Int64.add count Int64.one) })

/-- `getAddCount(id)` called `k` times in a row: the values returned, in
order, and the state after the last call. -/
def link.getAddCountTimes {C : Type} (id : peer.ID) : Nat → link C → List Int64 × link C
  | 0, l => ([], l)
  | k + 1, l =>
    let r := l.getAddCount id
    let rest := link.getAddCountTimes id k r.2
    (r.1 :: rest.1, rest.2)

/-- What the collaborators answer during one call of `UpdatePeerAddress`:
the error of `PeerHost.NewStream`, `config.Link.MaxAttempts` or the error of
`Repo.Config()`, the error of `coreapi.NewCoreAPI` and the error of
`api.Swarm().Connect`. -/
structure Env where
  NewStream : Option error
  Config : Except error Int64
  NewCoreAPI : Option error
  Connect : Option error

/-- What one call of `UpdatePeerAddress` did: the error returned and the
calls made on collaborators. -/
structure Outcome where
  err : Option error
  calls : List Call
  deriving DecidableEq, Repr

/-- `func (l *link) UpdatePeerAddress(ai peer.AddrInfo) error`. -/
def link.UpdatePeerAddress {C : Type} (cache : PeerCacheAPI C) (env : Env) (l : link C)
    (ai : peer.AddrInfo) : Outcome × link C :=
  match env.NewStream with
  | none => (⟨none, []⟩, l)
  | some _ =>
    match env.Config with
    | .error err => (⟨some err, []⟩, l)
    | .ok MaxAttempts =>
      let r := cache.UpdatePeerAddress l.addresses ai
      let l := { l with addresses := r.2 }
      if r.1 then
        let c := l.getAddCount ai.ID
        let count := c.1
        let l := c.2
        if count.toInt > MaxAttempts.toInt then
          (⟨some (error.New "connect failed max"), []⟩, l)
        else
          match env.NewCoreAPI with
          | some err => (⟨some err, []⟩, l)
          | none =>
            match env.Connect with
            | some err => (⟨some err, [Call.Connect ai]⟩, l)
            | none => (⟨none, [Call.Connect ai]⟩, l)
      else
        (⟨none, []⟩, l)

/-- The `for` loop of `getRemotePeerAddress` from iteration `i` on.
`done i`: `l.ctx.Done()` is ready at iteration `i`; `env i`: what the
collaborators answer in iteration `i`. `none`: out of `fuel`; `some`: the
function returned, with the calls made and the state. -/
def getRemotePeerAddress.loop {C : Type} (cache : PeerCacheAPI C) (unmarshal : UnmarshalJSON)
    (done : Nat → Bool) (env : Nat → Env) :
    Nat → Nat → bufio.Reader → link C → List Call → Option (List Call × link C)
  | 0, _, _, _, _ => none
  | fuel + 1, i, reader, l, calls =>
    if done i then
      some (calls, l)
    else
      match reader.ReadLine with
      | (⟨_, _, some _⟩, _) => some (calls, l)
      | (⟨line, _, none⟩, reader) =>
        match unmarshal peer.AddrInfo.zero line with
        | none => some (calls, l)
        | some ai =>
          if ai.ID = l.Identity then
            getRemotePeerAddress.loop cache unmarshal done env fuel (i + 1) reader l calls
          else
            let r := l.UpdatePeerAddress cache (env i) ai
            getRemotePeerAddress.loop cache unmarshal done env fuel (i + 1) reader r.2
              (calls ++ r.1.calls)

/-- `func (l *link) getRemotePeerAddress(wg *sync.WaitGroup, conn network.Conn)`;
the argument `stream` is what `PeerHost.NewStream` gave: the bytes of the
response, or an error. -/
def link.getRemotePeerAddress {C : Type} (cache : PeerCacheAPI C) (unmarshal : UnmarshalJSON)
    (done : Nat → Bool) (env : Nat → Env) (l : link C) (stream : Except error Bytes) :
    Option (List Call × link C) :=
  match stream with
  | .error _ => some ([], l)
  | .ok s =>
    getRemotePeerAddress.loop cache unmarshal done env (s.length + 1) 0 (bufio.NewReader s) l []

/-- `func (l *link) UpdateHash(hash path.Path, id peer.ID)`: the calls made. -/
def link.UpdateHash {P : Type} (path : PathAPI P) (hash : P) (id : peer.ID) : List Call :=
  [Call.hashesAdd (path.String hash) id, Call.AddSync (path.String hash)]

/-- What a run of `getRemoteHash` did: the lines `reader.ReadLine` gave it
and the calls made on collaborators, both in order. -/
structure HashRun where
  lines : List Bytes
  calls : List Call
  deriving DecidableEq, Repr

/-- The `for` loop of `getRemoteHash` from iteration `i` on. `none`: out of
`fuel`; `some`: the function returned. -/
def getRemoteHash.loop {P : Type} (path : PathAPI P) (id : peer.ID) (done : Nat → Bool) :
    Nat → Nat → bufio.Reader → HashRun → Option HashRun
  | 0, _, _, _ => none
  | fuel + 1, i, reader, run =>
    if done i then
      some run
    else
      match reader.ReadLine with
      | (⟨_, _, some _⟩, _) => some run
      | (⟨line, _, none⟩, reader) =>
        getRemoteHash.loop path id done fuel (i + 1) reader
          ⟨run.lines ++ [line], run.calls ++ link.UpdateHash path (path.New line) id⟩

/-- `func (l *link) getRemoteHash(wg *sync.WaitGroup, conn network.Conn)`;
`id` is `conn.RemotePeer()` and `stream` what `PeerHost.NewStream` gave: the
bytes of the response, or an error. -/
def link.getRemoteHash {P : Type} (path : PathAPI P) (id : peer.ID) (done : Nat → Bool)
    (stream : Except error Bytes) : Option HashRun :=
  match stream with
  | .error _ => some ⟨[], []⟩
  | .ok s => getRemoteHash.loop path id done (s.length + 1) 0 (bufio.NewReader s) ⟨[], []⟩

/-- The loop of `getRemoteHash` seen on the lines `ReadLine` gives, from
iteration `i` on: the run when the lines are used up or `done` holds. -/
def getRemoteHash.onLines {P : Type} (path : PathAPI P) (id : peer.ID) (done : Nat → Bool) :
    Nat → List Bytes → HashRun → HashRun
  | _, [], run => run
  | i, line :: rest, run =>
    if done i then run
    else
      getRemoteHash.onLines path id done (i + 1) rest
        ⟨run.lines ++ [line], run.calls ++ link.UpdateHash path (path.New line) id⟩

/-- The loop of `getRemotePeerAddress` seen on the lines `ReadLine` gives,
from iteration `i` on. -/
def getRemotePeerAddress.onLines {C : Type} (cache : PeerCacheAPI C) (unmarshal : UnmarshalJSON)
    (done : Nat → Bool) (env : Nat → Env) :
    Nat → List Bytes → link C → List Call → List Call × link C
  | _, [], l, calls => (calls, l)
  | i, line :: rest, l, calls =>
    if done i then (calls, l)
    else
      match unmarshal peer.AddrInfo.zero line with
      | none => (calls, l)
      | some ai =>
        if ai.ID = l.Identity then
          getRemotePeerAddress.onLines cache unmarshal done env (i + 1) rest l calls
        else
          let r := l.UpdatePeerAddress cache (env i) ai
          getRemotePeerAddress.onLines cache unmarshal done env (i + 1) rest r.2
            (calls ++ r.1.calls)

/-- Whether a call of `UpdatePeerAddress` reaches `getAddCount`: the stream
open failed, the configuration loaded and the cache reported an update. -/
def link.consults {C : Type} (cache : PeerCacheAPI C) (env : Env) (l : link C)
    (ai : peer.AddrInfo) : Bool :=
  match env.NewStream, env.Config with
  | some _, .ok _ => (cache.UpdatePeerAddress l.addresses ai).1
  | _, _ => false

/-- A sequence of calls of `UpdatePeerAddress`, each with what the
collaborators answer during it: the outcomes, in order, and the state after
the last call. -/
def link.run {C : Type} (cache : PeerCacheAPI C) :
    link C → List (peer.AddrInfo × Env) → List Outcome × link C
  | l, [] => ([], l)
  | l, (ai, env) :: rest =>
    let r := l.UpdatePeerAddress cache env ai
    let rs := link.run cache r.2 rest
    (r.1 :: rs.1, rs.2)

/-- How many calls of a sequence are for peer `p` and reach `getAddCount`. -/
def link.consultCount {C : Type} (cache : PeerCacheAPI C) (p : peer.ID) :
    link C → List (peer.AddrInfo × Env) → Nat
  | _, [] => 0
  | l, (ai, env) :: rest =>
    (if ai.ID = p ∧ l.consults cache env ai = true then 1 else 0)
      + link.consultCount cache p (l.UpdatePeerAddress cache env ai).2 rest

/-- Collaborators' answers for examples: the direct stream open fails, the
configuration loads with `MaxAttempts = N`, and the connect request fails. -/
def demoEnv (N : Int) : Env :=
  { NewStream := some (error.foreign "dial"), Config := .ok (Int64.ofInt N),
    NewCoreAPI := none, Connect := some (error.foreign "connect") }

end linker

/-! ## Theorems: package `link`, the address cache -/

namespace link

theorem AddPeerAddress_absent (l : link) (id : peer.ID) (addrs : peer.AddrInfo)
    (h : l.addresses id = none) :
    l.AddPeerAddress id addrs = (true, { l with addresses := l.addresses.set id addrs }) := by
  simp [link.AddPeerAddress, GoMap.has, h]

theorem AddPeerAddress_present (l : link) (id : peer.ID) (addrs r : peer.AddrInfo)
    (h : l.addresses id = some r) :
    l.AddPeerAddress id addrs = (false, l) := by
  simp [link.AddPeerAddress, GoMap.has, h]

/-- C1. For a peer `p` absent from the address cache, `AddPeerAddress(p, r1)`
followed by `AddPeerAddress(p, r2)` leaves `p` mapped to `r1`; the first call
returned true and the second false. -/
theorem C1_add_twice_keeps_first (l : link) (p : peer.ID) (r1 r2 : peer.AddrInfo)
    (h : l.addresses p = none) :
    ((l.AddPeerAddress p r1).2.AddPeerAddress p r2).2.addresses p = some r1
      ∧ (l.AddPeerAddress p r1).1 = true
      ∧ ((l.AddPeerAddress p r1).2.AddPeerAddress p r2).1 = false := by
  have h1 := AddPeerAddress_absent l p r1 h
  have h2 : (l.AddPeerAddress p r1).2.addresses p = some r1 := by
    simp [h1, GoMap.set]
  have h3 := AddPeerAddress_present (l.AddPeerAddress p r1).2 p r2 r1 h2
  refine ⟨?_, ?_, ?_⟩
  · rw [h3]; exact h2
  · rw [h1]
  · rw [h3]

/-- C1 at the empty cache of `New`, peer `[1]`, records with one and no address. -/
theorem C1_add_twice_keeps_first_witness :
    (New [7]).addresses [1] = none
      ∧ (((New [7]).AddPeerAddress [1] ⟨[1], [[4, 1]]⟩).2.AddPeerAddress [1] ⟨[1], []⟩).2.addresses [1]
          = some ⟨[1], [[4, 1]]⟩
      ∧ ((New [7]).AddPeerAddress [1] ⟨[1], [[4, 1]]⟩).1 = true
      ∧ (((New [7]).AddPeerAddress [1] ⟨[1], [[4, 1]]⟩).2.AddPeerAddress [1] ⟨[1], []⟩).1 = false :=
  ⟨rfl, C1_add_twice_keeps_first (New [7]) [1] ⟨[1], [[4, 1]]⟩ ⟨[1], []⟩ rfl⟩

/-- C8 (amended). Every identity present before an operation of the address
cache is still present after it. `CheckPeerAddress` and `AddPeerAddress` leave
the record of every present identity as it was; `AddAddress(id', addrs)`
stores `addrs` for `id'`, whatever was stored before, and leaves the record
of every other identity as it was. -/
theorem C8_present_stays_present (l : link) (op : CacheOp) (id : peer.ID) (r : peer.AddrInfo)
    (h : l.addresses id = some r) :
    (∃ r', (op.run l).addresses id = some r')
      ∧ (match op with
          | .add id' addrs =>
            (op.run l).addresses id' = some addrs
              ∧ (id ≠ id' → (op.run l).addresses id = some r)
          | _ => (op.run l).addresses id = some r) := by
  cases op with
  | check id' => exact ⟨⟨r, h⟩, h⟩
  | addPeer id' addrs =>
    have key : (l.AddPeerAddress id' addrs).2.addresses id = some r := by
      cases h' : l.addresses id' with
      | some r' => rw [AddPeerAddress_present l id' addrs r' h']; exact h
      | none =>
        rw [AddPeerAddress_absent l id' addrs h']
        have hne : id ≠ id' := by
          intro e; rw [e, h'] at h; exact Option.noConfusion h
        simp [GoMap.set, hne, h]
    exact ⟨⟨r, key⟩, key⟩
  | add id' addrs =>
    refine ⟨?_, ?_, ?_⟩
    · by_cases e : id = id'
      · exact ⟨addrs, by simp [CacheOp.run, link.AddAddress, GoMap.set, e]⟩
      · exact ⟨r, by simp [CacheOp.run, link.AddAddress, GoMap.set, e, h]⟩
    · simp [CacheOp.run, link.AddAddress, GoMap.set]
    · intro e
      simp [CacheOp.run, link.AddAddress, GoMap.set, e, h]

/-- C8 at the cache holding peer `[1]` with one address, for `AddAddress` of
another peer. -/
theorem C8_present_stays_present_witness :
    ((New [7]).AddAddress [1] ⟨[1], [[4, 1]]⟩).addresses [1] = some ⟨[1], [[4, 1]]⟩
      ∧ (∃ r', ((CacheOp.add [2] ⟨[2], []⟩).run ((New [7]).AddAddress [1] ⟨[1], [[4, 1]]⟩)).addresses
            [1] = some r')
      ∧ ((CacheOp.add [2] ⟨[2], []⟩).run ((New [7]).AddAddress [1] ⟨[1], [[4, 1]]⟩)).addresses [2]
          = some ⟨[2], []⟩
      ∧ (([1] : peer.ID) ≠ [2] →
          ((CacheOp.add [2] ⟨[2], []⟩).run ((New [7]).AddAddress [1] ⟨[1], [[4, 1]]⟩)).addresses [1]
            = some ⟨[1], [[4, 1]]⟩) :=
  ⟨rfl, C8_present_stays_present ((New [7]).AddAddress [1] ⟨[1], [[4, 1]]⟩)
    (CacheOp.add [2] ⟨[2], []⟩) [1] ⟨[1], [[4, 1]]⟩ rfl⟩

/-- C8, as stated, fails for `AddAddress`: on the cache that holds peer `[1]`
with the address `[4, 1]`, `AddAddress([1], {ID: [1], Addrs: []})` leaves
peer `[1]` with no address, so it is not true that every address stored
before the call is stored after it. -/
theorem C8_AddAddress_loses_address :
    ¬ (∀ r r' : peer.AddrInfo,
        ((New [7]).AddAddress [1] ⟨[1], [[4, 1]]⟩).addresses [1] = some r →
        (((New [7]).AddAddress [1] ⟨[1], [[4, 1]]⟩).AddAddress [1] ⟨[1], []⟩).addresses [1]
          = some r' →
        ∀ a ∈ r.Addrs, a ∈ r'.Addrs) := by
  intro h
  have h' := h ⟨[1], [[4, 1]]⟩ ⟨[1], []⟩ rfl rfl [4, 1] (List.mem_singleton.mpr rfl)
  exact List.not_mem_nil _ h'

theorem getPeerAddress_loop_none (unmarshal : UnmarshalJSON) (line : Bytes)
    (hwf : ∀ r, (unmarshal r line).isSome = true) :
    ∀ (fuel : Nat) (l : link) (ai : peer.AddrInfo),
      getPeerAddress.loop unmarshal line fuel l ai = none := by
  intro fuel
  induction fuel with
  | zero => intro l ai; rfl
  | succ n ih =>
    intro l ai
    have h := hwf ai
    cases hu : unmarshal ai line with
    | none => rw [hu] at h; exact Bool.noConfusion h
    | some ai' =>
      simp only [getPeerAddress.loop, hu]
      split
      · exact ih _ _
      · split
        · exact ih _ _
        · exact ih _ _

/-- C10 (what the code does instead). When the first `ReadLine` of a response
gives a line that `UnmarshalJSON` accepts, `getPeerAddress` of package `link`
never returns: whatever the number of iterations allowed, it is still inside
its `for` statement, so `wg.Done` is not reached. -/
theorem C10_getPeerAddress_never_returns (unmarshal : UnmarshalJSON) (l : link) (s line : Bytes)
    (more : Bool) (rest : bufio.Reader)
    (hread : (bufio.NewReader s).ReadLine = (⟨line, more, none⟩, rest))
    (hwf : ∀ r, (unmarshal r line).isSome = true) (fuel : Nat) :
    l.getPeerAddress unmarshal fuel (.ok s) = none := by
  simp only [link.getPeerAddress, hread]
  exact getPeerAddress_loop_none unmarshal line hwf fuel l _

/-- C10 at the response `[2, 4, 1, '\n']`: one record, for peer `[2]`. -/
theorem C10_getPeerAddress_never_returns_witness :
    (bufio.NewReader [2, 4, 1, 10]).ReadLine = (⟨[2, 4, 1], false, none⟩, ⟨[]⟩)
      ∧ (∀ r, (demoUnmarshalJSON r [2, 4, 1]).isSome = true)
      ∧ (∀ fuel, (New [7]).getPeerAddress demoUnmarshalJSON fuel (.ok [2, 4, 1, 10]) = none) :=
  ⟨by decide, fun _ => rfl, fun fuel =>
    C10_getPeerAddress_never_returns demoUnmarshalJSON (New [7]) [2, 4, 1, 10] [2, 4, 1] false ⟨[]⟩
      (by decide) (fun _ => rfl) fuel⟩

end link

/-! ## Theorems: `bufio.Reader.ReadLine` -/

namespace bufio

theorem ReadLine_consumes (b : Reader) (line : Bytes) (more : Bool) (b' : Reader)
    (h : b.ReadLine = (⟨line, more, none⟩, b')) : b'.pending.length < b.pending.length := by
  unfold Reader.ReadLine Reader.ReadSlice at h
  simp only at h
  split_ifs at h with h1 h2 <;> simp only at h
  · have hpos : 0 < b.pending.length := by
      have : 0 < (List.take defaultBufSize b.pending).length := by omega
      rw [List.length_take] at this
      omega
    have hb : b' = ⟨List.drop
        ((List.takeWhile (fun c => c != 10) (List.take defaultBufSize b.pending)).length + 1)
        b.pending⟩ := by
      split_ifs at h <;> exact (Prod.mk.inj h).2.symm
    rw [hb]
    simp only [List.length_drop]
    omega
  · split_ifs at h <;>
      first
      | (have hb := (Prod.mk.inj h).2
         rw [← hb]
         simp only [List.length_nil]
         omega)
      | (have hl := (Prod.mk.inj h).1
         simp at hl)
  · have hge : defaultBufSize ≤ b.pending.length := by omega
    have hsz : defaultBufSize = 4096 := rfl
    split_ifs at h with h3
    · have hb := (Prod.mk.inj h).2
      rw [← hb]
      simp only [List.length_cons, List.length_drop]
      omega
    · have hb := (Prod.mk.inj h).2
      rw [← hb]
      simp only [List.length_drop]
      omega

theorem ReadSlice_record (id rest : Bytes) (hnl : ∀ c ∈ id, c ≠ 10)
    (hlen : id.length < defaultBufSize) :
    (Reader.mk (id ++ 10 :: rest)).ReadSlice = (id ++ [10], none, ⟨rest⟩) := by
  have hw : List.take defaultBufSize (id ++ 10 :: rest)
      = id ++ 10 :: List.take (defaultBufSize - id.length - 1) rest := by
    rw [List.take_append_eq_append_take, List.take_of_length_le (by omega)]
    obtain ⟨k, hk⟩ : ∃ k, defaultBufSize - id.length = k + 1 := ⟨defaultBufSize - id.length - 1, by omega⟩
    rw [hk, List.take_succ_cons]
    simp
  have htw : List.takeWhile (fun c => c != 10)
      (id ++ 10 :: List.take (defaultBufSize - id.length - 1) rest) = id := by
    rw [List.takeWhile_append_of_pos (by simpa using hnl)]
    simp
  have htake : List.take (id.length + 1) (id ++ 10 :: rest) = id ++ [10] := by
    have : id ++ 10 :: rest = (id ++ [10]) ++ rest := by simp
    rw [this]
    exact List.take_left' (by simp)
  have hdrop : List.drop (id.length + 1) (id ++ 10 :: rest) = rest := by
    have : id ++ 10 :: rest = (id ++ [10]) ++ rest := by simp
    rw [this]
    exact List.drop_left' (by simp)
  unfold Reader.ReadSlice
  simp only [hw, htw, htake, hdrop]
  rw [if_pos (by simp)]

theorem ReadLine_record (id rest : Bytes) (hnl : ∀ c ∈ id, c ≠ 10)
    (hlen : id.length < defaultBufSize) (hcr : id.getLast? ≠ some 13) :
    (Reader.mk (id ++ 10 :: rest)).ReadLine = (⟨id, false, none⟩, ⟨rest⟩) := by
  unfold Reader.ReadLine
  rw [ReadSlice_record id rest hnl hlen]
  simp only
  rw [if_neg (by simp), if_pos (by simp)]
  simp [hcr]

end bufio

/-! ## Theorems: package `linker` -/

namespace linker

theorem Write_unbounded (s : Stream) (p : Bytes) (h : s.budget = none) :
    s.Write p = (none, { s with written := s.written ++ p }) := by
  simp [Stream.Write, h]

theorem newLinkPeersHandle_loop_written (marshal : MarshalJSON) (node : IpfsNode) :
    ∀ (peers : List peer.ID) (s : Stream), s.budget = none →
      (newLinkPeersHandle.loop marshal node peers s).written
        = s.written ++ (peers.map (fun q => marshal (node.PeerInfo q) ++ NewLine)).flatten := by
  intro peers
  induction peers with
  | nil => intro s _; simp [newLinkPeersHandle.loop]
  | cons q qs ih =>
    intro s h
    have h1 := Write_unbounded s (marshal (node.PeerInfo q)) h
    have h2 := Write_unbounded { s with written := s.written ++ marshal (node.PeerInfo q) }
      NewLine h
    simp only [newLinkPeersHandle.loop, h1, h2]
    rw [ih]
    · simp [List.append_assoc]
    · exact h

/-- C2 (what the code does instead). With `R = [82]` the only connected peer
and a stream opened by `R` from the address `[4, 1]`, the peer-list handler
of package `linker` writes exactly one record, the record of `R` itself,
followed by a newline. -/
theorem C2_handler_sends_requester (marshal : MarshalJSON) :
    (newLinkPeersHandle marshal ⟨GoMap.empty, [[82]]⟩ ⟨[82], [4, 1], [], none⟩).2.written
      = marshal ⟨[82], [[4, 1]]⟩ ++ [10] := by
  rfl

/-! ### The failure ledger -/

theorem Int64_zero_toInt : Int64.zero.toInt = 0 := by decide

theorem Int64_one_toInt : Int64.one.toInt = 1 := by decide

theorem Int64_succ_toInt (c : Int64) (h : c.toInt < 9223372036854775807) :
    (Int64.add c Int64.one).toInt = c.toInt + 1 := by
  have hr := c.inRange
  show Int64.wrap (c.toInt + Int64.one.toInt) = c.toInt + 1
  rw [Int64_one_toInt]
  unfold Int64.wrap
  omega

theorem getAddCount_fst {C : Type} (l : link C) (id : peer.ID) :
    (l.getAddCount id).1 = l.failedCount.getD id Int64.zero := rfl

theorem getAddCount_same {C : Type} (l : link C) (id : peer.ID) :
    (l.getAddCount id).2.failedCount.getD id Int64.zero
      = Int64.add (l.failedCount.getD id Int64.zero) Int64.one := by
  simp [link.getAddCount, GoMap.getD, GoMap.set]

theorem getAddCount_other {C : Type} (l : link C) (id id' : peer.ID) (h : id' ≠ id) :
    (l.getAddCount id).2.failedCount id' = l.failedCount id' := by
  simp [link.getAddCount, GoMap.set, h]

theorem getAddCountTimes_from {C : Type} (id : peer.ID) :
    ∀ (k : Nat) (l : link C) (n : Nat),
      (l.failedCount.getD id Int64.zero).toInt = (n : Int) →
      n + k ≤ 9223372036854775808 →
      (link.getAddCountTimes id k l).1.map Int64.toInt
        = (List.range' n k).map (fun i => (i : Int)) := by
  intro k
  induction k with
  | zero => intro l n _ _; simp [link.getAddCountTimes]
  | succ k ih =>
    intro l n hn hk
    simp only [link.getAddCountTimes, List.map_cons, List.range'_succ]
    rw [getAddCount_fst, hn]
    congr 1
    cases k with
    | zero => simp [link.getAddCountTimes]
    | succ j =>
      apply ih _ (n + 1)
      · rw [getAddCount_same, Int64_succ_toInt _ (by omega), hn]
        push_cast
        rfl
      · omega

/-- C4 (amended). For every ledger and every `id`, `getAddCount(id)` returns
the count stored for `id` before the call (0 when `id` has no entry) and
leaves the count of every other identity unchanged; when the stored count is
below `math.MaxInt64` it leaves the count for `id` exactly one greater than
the returned value. So on a ledger without an entry for `id`, `k` successive
calls for `id` return 0, 1, ..., k-1, for every `k` up to 2^63. -/
theorem C4_getAddCount {C : Type} (l : link C) (id : peer.ID) :
    (l.getAddCount id).1 = l.failedCount.getD id Int64.zero
      ∧ (∀ id', id' ≠ id → (l.getAddCount id).2.failedCount id' = l.failedCount id')
      ∧ ((l.failedCount.getD id Int64.zero).toInt < 9223372036854775807 →
          ((l.getAddCount id).2.failedCount.getD id Int64.zero).toInt
            = (l.getAddCount id).1.toInt + 1)
      ∧ (∀ k : Nat, l.failedCount id = none → k ≤ 9223372036854775808 →
          (link.getAddCountTimes id k l).1.map Int64.toInt
            = (List.range k).map (fun i => (i : Int))) := by
  refine ⟨rfl, ?_, ?_, ?_⟩
  · intro id' hne
    exact getAddCount_other l id id' hne
  · intro h
    rw [getAddCount_same, getAddCount_fst, Int64_succ_toInt _ h]
  · intro k hnone hk
    rw [List.range_eq_range']
    apply getAddCountTimes_from id k l 0
    · simp [GoMap.getD, hnone, Int64_zero_toInt]
    · omega

/-- C4 at the ledger of `New`, for peer `[1]` and three successive calls, and
at the ledger whose count for `[1]` is `math.MaxInt64`, where the returned
value and the other identities' counts are still as stated. -/
theorem C4_getAddCount_witness :
    ((New [7] ()).failedCount.getD [1] Int64.zero).toInt < 9223372036854775807
      ∧ ((New [7] ()).getAddCount [1]).1 = Int64.zero
      ∧ (((New [7] ()).getAddCount [1]).2.failedCount.getD [1] Int64.zero).toInt = 1
      ∧ (link.getAddCountTimes [1] 3 (New [7] ())).1.map Int64.toInt = [0, 1, 2]
      ∧ (({ New [7] () with failedCount := GoMap.set GoMap.empty [1] Int64.max } : link
          Unit).getAddCount [1]).1 = Int64.max
      ∧ (∀ id', id' ≠ ([1] : peer.ID) →
          (({ New [7] () with failedCount := GoMap.set GoMap.empty [1] Int64.max } : link
            Unit).getAddCount [1]).2.failedCount id'
            = (GoMap.set GoMap.empty [1] Int64.max : GoMap peer.ID Int64) id') :=
  have h := C4_getAddCount (New [7] ()) [1]
  have h' := C4_getAddCount
    ({ New [7] () with failedCount := GoMap.set GoMap.empty [1] Int64.max } : link Unit) [1]
  ⟨by decide, h.1, h.2.2.1 (by decide), h.2.2.2 3 rfl (by decide), h'.1, h'.2.1⟩

/-- C4, as stated, fails on the ledger whose count for peer `[1]` is
`math.MaxInt64`: `getAddCount([1])` returns 9223372036854775807 and leaves
the count -9223372036854775808, which is not one greater. -/
theorem C4_getAddCount_wraps :
    (({ New [7] () with failedCount := GoMap.set GoMap.empty [1] Int64.max } : link Unit).getAddCount
        [1]).1.toInt = 9223372036854775807
      ∧ ((({ New [7] () with failedCount := GoMap.set GoMap.empty [1] Int64.max } : link
          Unit).getAddCount [1]).2.failedCount.getD [1] Int64.zero).toInt
          = -9223372036854775808 := by
  decide

/-! ### The retry cap -/

theorem UpdatePeerAddress_count {C : Type} (cache : PeerCacheAPI C) (env : Env) (l : link C)
    (ai : peer.AddrInfo) (p : peer.ID) :
    (l.UpdatePeerAddress cache env ai).2.failedCount.getD p Int64.zero
      = if ai.ID = p ∧ l.consults cache env ai = true then
          Int64.add (l.failedCount.getD p Int64.zero) Int64.one
        else l.failedCount.getD p Int64.zero := by
  unfold link.UpdatePeerAddress link.consults
  cases hs : env.NewStream with
  | none => simp
  | some e =>
    cases hc : env.Config with
    | error e' => simp
    | ok m =>
      cases hb : (cache.UpdatePeerAddress l.addresses ai).1 with
      | false => simp [hb]
      | true =>
        have key : ({ l with addresses := (cache.UpdatePeerAddress l.addresses ai).2 } :
            link C).getAddCount ai.ID
              = (l.failedCount.getD ai.ID Int64.zero,
                  { l with addresses := (cache.UpdatePeerAddress l.addresses ai).2,
                           failedCount := l.failedCount.set ai.ID
                             (Int64.add (l.failedCount.getD ai.ID Int64.zero) Int64.one) }) := rfl
        simp only [hb, key, if_true, and_true]
        by_cases hp : ai.ID = p
        · subst hp
          simp only [if_true]
          split
          · simp [GoMap.getD, GoMap.set]
          · cases env.NewCoreAPI <;> cases env.Connect <;> simp [GoMap.getD, GoMap.set]
        · have hp' : p ≠ ai.ID := fun e => hp e.symm
          simp only [hp, if_false]
          split
          · simp [GoMap.getD, GoMap.set, hp']
          · cases env.NewCoreAPI <;> cases env.Connect <;> simp [GoMap.getD, GoMap.set, hp']

theorem consultCount_le_length {C : Type} (cache : PeerCacheAPI C) (p : peer.ID) :
    ∀ (pre : List (peer.AddrInfo × Env)) (l : link C),
      link.consultCount cache p l pre ≤ pre.length := by
  intro pre
  induction pre with
  | nil => intro l; simp [link.consultCount]
  | cons c rest ih =>
    intro l
    obtain ⟨ai, env⟩ := c
    have h := ih (l.UpdatePeerAddress cache env ai).2
    simp only [link.consultCount, List.length_cons]
    split <;> omega

theorem run_count {C : Type} (cache : PeerCacheAPI C) (p : peer.ID) :
    ∀ (pre : List (peer.AddrInfo × Env)) (l : link C) (n : Nat),
      (l.failedCount.getD p Int64.zero).toInt = (n : Int) →
      n + pre.length ≤ 9223372036854775807 →
      ((link.run cache l pre).2.failedCount.getD p Int64.zero).toInt
        = ((n + link.consultCount cache p l pre : Nat) : Int) := by
  intro pre
  induction pre with
  | nil => intro l n hn _; simpa [link.run, link.consultCount] using hn
  | cons c rest ih =>
    intro l n hn hlen
    obtain ⟨ai, env⟩ := c
    simp only [List.length_cons] at hlen
    simp only [link.run, link.consultCount]
    by_cases hq : ai.ID = p ∧ l.consults cache env ai = true
    · have h1 : ((l.UpdatePeerAddress cache env ai).2.failedCount.getD p Int64.zero).toInt
          = ((n + 1 : Nat) : Int) := by
        rw [UpdatePeerAddress_count, if_pos hq, Int64_succ_toInt _ (by omega), hn]
        push_cast
        rfl
      rw [ih _ (n + 1) h1 (by omega), if_pos hq]
      congr 1
      omega
    · have h1 : ((l.UpdatePeerAddress cache env ai).2.failedCount.getD p Int64.zero).toInt
          = (n : Int) := by
        rw [UpdatePeerAddress_count, if_neg hq, hn]
      rw [ih _ n h1 (by omega), if_neg hq]
      congr 1
      omega

theorem UpdatePeerAddress_capped {C : Type} (cache : PeerCacheAPI C) (env : Env) (l : link C)
    (ai : peer.AddrInfo) (N : Int64) (hcfg : ∀ m, env.Config = .ok m → m = N)
    (hover : N.toInt < (l.failedCount.getD ai.ID Int64.zero).toInt) :
    (l.UpdatePeerAddress cache env ai).1.calls = []
      ∧ (l.consults cache env ai = true →
          (l.UpdatePeerAddress cache env ai).1.err = some (error.New "connect failed max"))
      ∧ (l.consults cache env ai = false →
          (l.UpdatePeerAddress cache env ai).1.err = none
            ∨ ∃ e, env.Config = .error e ∧ (l.UpdatePeerAddress cache env ai).1.err = some e) := by
  unfold link.UpdatePeerAddress link.consults
  cases hs : env.NewStream with
  | none => simp
  | some e =>
    cases hc : env.Config with
    | error e' => simp
    | ok m =>
      have hm : m = N := hcfg m hc
      subst hm
      cases hb : (cache.UpdatePeerAddress l.addresses ai).1 with
      | false => simp [hb]
      | true =>
        have key : (({ l with addresses := (cache.UpdatePeerAddress l.addresses ai).2 } :
            link C).getAddCount ai.ID).1 = l.failedCount.getD ai.ID Int64.zero := rfl
        simp [hb, key, hover]

/-- C3 (amended). For every maximum `N`, every peer `p` and every cache: run
any sequence of fewer than 2^63 calls of `UpdatePeerAddress` on a ledger
without an entry for `p`. Once `N + 1` of these calls were for `p` and
reached the failure ledger (stream open failed, configuration loaded, cache
reported an update), a later call for `p` issues no connect request; it
returns the exhausted-retry error when it reaches the ledger itself, and
otherwise returns nil or the configuration error. -/
theorem C3_retry_cap {C : Type} (cache : PeerCacheAPI C) (N : Int64) (p : peer.ID) (l0 : link C)
    (pre : List (peer.AddrInfo × Env)) (ai : peer.AddrInfo) (env : Env)
    (hfresh : l0.failedCount p = none) (hlen : pre.length < 9223372036854775808)
    (hp : ai.ID = p) (hcfg : ∀ m, env.Config = .ok m → m = N)
    (hcount : N.toInt + 1 ≤ (link.consultCount cache p l0 pre : Int)) :
    ((link.run cache l0 pre).2.UpdatePeerAddress cache env ai).1.calls = []
      ∧ ((link.run cache l0 pre).2.consults cache env ai = true →
          ((link.run cache l0 pre).2.UpdatePeerAddress cache env ai).1.err
            = some (error.New "connect failed max"))
      ∧ ((link.run cache l0 pre).2.consults cache env ai = false →
          ((link.run cache l0 pre).2.UpdatePeerAddress cache env ai).1.err = none
            ∨ ∃ e, env.Config = .error e
                ∧ ((link.run cache l0 pre).2.UpdatePeerAddress cache env ai).1.err = some e) := by
  have h0 : (l0.failedCount.getD p Int64.zero).toInt = ((0 : Nat) : Int) := by
    simp [GoMap.getD, hfresh, Int64_zero_toInt]
  have hc := run_count cache p pre l0 0 h0 (by omega)
  apply UpdatePeerAddress_capped cache env _ ai N hcfg
  rw [hp, hc]
  push_cast
  omega

/-- C3 with `N = 1` and a cache that reports an update every time: after two
failed calls for peer `[1]`, the third issues no connect request and returns
the exhausted-retry error. -/
theorem C3_retry_cap_witness :
    (New [7] ()).failedCount [1] = none
      ∧ (Int64.ofInt 1).toInt + 1
          ≤ (link.consultCount alwaysUpdated [1] (New [7] ())
              [(⟨[1], [[4, 1]]⟩, demoEnv 1), (⟨[1], [[4, 1]]⟩, demoEnv 1)] : Int)
      ∧ ((link.run alwaysUpdated (New [7] ())
            [(⟨[1], [[4, 1]]⟩, demoEnv 1), (⟨[1], [[4, 1]]⟩, demoEnv 1)]).2.UpdatePeerAddress
              alwaysUpdated (demoEnv 1) ⟨[1], [[4, 1]]⟩).1
          = ⟨some (error.New "connect failed max"), []⟩ :=
  have h := C3_retry_cap alwaysUpdated (Int64.ofInt 1) [1] (New [7] ())
    [(⟨[1], [[4, 1]]⟩, demoEnv 1), (⟨[1], [[4, 1]]⟩, demoEnv 1)] ⟨[1], [[4, 1]]⟩ (demoEnv 1)
    rfl (by decide) rfl (fun m hm => (Except.ok.inj hm).symm) (by decide)
  ⟨rfl, by decide, by
    have e1 := h.1
    have e2 := h.2.1 (by decide)
    cases hr : ((link.run alwaysUpdated (New [7] ())
            [(⟨[1], [[4, 1]]⟩, demoEnv 1), (⟨[1], [[4, 1]]⟩, demoEnv 1)]).2.UpdatePeerAddress
              alwaysUpdated (demoEnv 1) ⟨[1], [[4, 1]]⟩).1 with
    | mk err calls =>
      rw [hr] at e1 e2
      simp only at e1 e2
      rw [e1, e2]⟩

/-- C3, as stated, fails. With `N = 0` and the cache of the spec
(`AddIfAbsent`), three calls for peer `[1]` whose stream open fails each
time: the first issues a connect request, the second and third return nil,
not the exhausted-retry error, because only a novel insert reaches the
ledger. And with any cache, a later call whose configuration load fails
returns that error. -/
theorem C3_later_calls_return_nil :
    (link.run PeerCache.api (New [7] NewAddress)
        [(⟨[1], [[4, 1]]⟩, demoEnv 0), (⟨[1], [[4, 1]]⟩, demoEnv 0),
          (⟨[1], [[4, 1]]⟩, demoEnv 0)]).1
      = [⟨some (error.foreign "connect"), [Call.Connect ⟨[1], [[4, 1]]⟩]⟩, ⟨none, []⟩, ⟨none, []⟩]
      ∧ (link.run alwaysUpdated (New [7] ())
          [(⟨[1], [[4, 1]]⟩, demoEnv 0),
            (⟨[1], [[4, 1]]⟩, { demoEnv 0 with Config := .error (error.foreign "config") })]).1
        = [⟨some (error.foreign "connect"), [Call.Connect ⟨[1], [[4, 1]]⟩]⟩,
            ⟨some (error.foreign "config"), []⟩] := by
  decide

/-! ### The hash list -/

theorem newLinkHashHandle_written :
    ∀ (pins : List Bytes) (s : Stream), s.budget = none →
      (newLinkHashHandle pins s).written
        = s.written ++ (pins.map (fun q => q ++ NewLine)).flatten := by
  intro pins
  induction pins with
  | nil => intro s _; simp [newLinkHashHandle]
  | cons q qs ih =>
    intro s h
    have h1 := Write_unbounded s q h
    have h2 := Write_unbounded { s with written := s.written ++ q } NewLine h
    simp only [newLinkHashHandle, h1, h2]
    rw [ih]
    · simp [List.append_assoc]
    · exact h

theorem linesAux_records :
    ∀ (ids : List Bytes) (fuel : Nat),
      (∀ id ∈ ids, (∀ c ∈ id, c ≠ 10) ∧ id.getLast? ≠ some 13
        ∧ id.length < bufio.defaultBufSize) →
      ((ids.map (fun q => q ++ NewLine)).flatten).length < fuel →
      bufio.Reader.linesAux fuel ⟨(ids.map (fun q => q ++ NewLine)).flatten⟩ = ids := by
  intro ids
  induction ids with
  | nil =>
    intro fuel _ hf
    cases fuel with
    | zero => exact absurd hf (Nat.not_lt_zero _)
    | succ n => rfl
  | cons id ids ih =>
    intro fuel hok hf
    have hid := hok id (List.mem_cons_self _ _)
    have hrest : ∀ q ∈ ids, (∀ c ∈ q, c ≠ 10) ∧ q.getLast? ≠ some 13
        ∧ q.length < bufio.defaultBufSize := fun q hq => hok q (List.mem_cons_of_mem _ hq)
    have hshape : ((id :: ids).map (fun q => q ++ NewLine)).flatten
        = id ++ 10 :: (ids.map (fun q => q ++ NewLine)).flatten := by
      simp [NewLine]
    rw [hshape] at hf ⊢
    cases fuel with
    | zero => exact absurd hf (Nat.not_lt_zero _)
    | succ n =>
      simp only [bufio.Reader.linesAux, bufio.ReadLine_record id _ hid.1 hid.2.2 hid.2.1]
      rw [ih n hrest]
      simp only [List.length_append, List.length_cons] at hf
      omega

theorem linesAux_fuel :
    ∀ (fuel fuel' : Nat) (b : bufio.Reader),
      b.pending.length < fuel → b.pending.length < fuel' →
      bufio.Reader.linesAux fuel b = bufio.Reader.linesAux fuel' b := by
  intro fuel
  induction fuel with
  | zero => intro fuel' b h _; exact absurd h (Nat.not_lt_zero _)
  | succ n ih =>
    intro fuel' b h h'
    cases fuel' with
    | zero => exact absurd h' (Nat.not_lt_zero _)
    | succ m =>
      cases hr : b.ReadLine with
      | mk res b' =>
        obtain ⟨line, more, err⟩ := res
        cases err with
        | some e => simp [bufio.Reader.linesAux, hr]
        | none =>
          have hlt := bufio.ReadLine_consumes b line more b' hr
          simp only [bufio.Reader.linesAux, hr]
          rw [ih m b' (by omega) (by omega)]

theorem lines_record (id rest : Bytes) (hnl : ∀ c ∈ id, c ≠ 10)
    (hcr : id.getLast? ≠ some 13) (hlen : id.length < bufio.defaultBufSize) :
    (bufio.Reader.mk (id ++ 10 :: rest)).lines = id :: (bufio.Reader.mk rest).lines := by
  have h1 : bufio.Reader.linesAux ((id ++ 10 :: rest).length + 1) ⟨id ++ 10 :: rest⟩
      = id :: bufio.Reader.linesAux (id ++ 10 :: rest).length ⟨rest⟩ := by
    simp only [bufio.Reader.linesAux, bufio.ReadLine_record id rest hnl hlen hcr]
  show bufio.Reader.linesAux ((id ++ 10 :: rest).length + 1) ⟨id ++ 10 :: rest⟩
    = id :: bufio.Reader.linesAux (rest.length + 1) ⟨rest⟩
  rw [h1]
  congr 1
  apply linesAux_fuel
  · simp only [List.length_append, List.length_cons]; omega
  · exact Nat.lt_succ_self _

theorem lines_records_tail (tail : Bytes) :
    ∀ (ids : List Bytes),
      (∀ id ∈ ids, (∀ c ∈ id, c ≠ 10) ∧ id.getLast? ≠ some 13
        ∧ id.length < bufio.defaultBufSize) →
      (bufio.NewReader ((ids.map (fun q => q ++ NewLine)).flatten ++ tail)).lines
        = ids ++ (bufio.NewReader tail).lines := by
  intro ids
  induction ids with
  | nil => intro _; rfl
  | cons id ids ih =>
    intro hok
    have hid := hok id (List.mem_cons_self _ _)
    have hrest : ∀ q ∈ ids, (∀ c ∈ q, c ≠ 10) ∧ q.getLast? ≠ some 13
        ∧ q.length < bufio.defaultBufSize := fun q hq => hok q (List.mem_cons_of_mem _ hq)
    have hshape : ((id :: ids).map (fun q => q ++ NewLine)).flatten ++ tail
        = id ++ 10 :: ((ids.map (fun q => q ++ NewLine)).flatten ++ tail) := by
      simp [NewLine]
    have ih' := ih hrest
    unfold bufio.NewReader at ih' ⊢
    rw [hshape, lines_record id _ hid.1 hid.2.1 hid.2.2, ih']
    rfl

theorem lines_records :
    ∀ (ids : List Bytes),
      (∀ id ∈ ids, (∀ c ∈ id, c ≠ 10) ∧ id.getLast? ≠ some 13
        ∧ id.length < bufio.defaultBufSize) →
      (bufio.NewReader ((ids.map (fun q => q ++ NewLine)).flatten)).lines = ids := by
  intro ids hok
  have h := lines_records_tail [] ids hok
  simp only [List.append_nil] at h
  rw [h]
  show ids ++ [] = ids
  simp

theorem getRemoteHash_onLines_done {P : Type} (path : PathAPI P) (id : peer.ID)
    (done : Nat → Bool) (i : Nat) (lines : List Bytes) (run : HashRun) (h : done i = true) :
    getRemoteHash.onLines path id done i lines run = run := by
  cases lines with
  | nil => rfl
  | cons line rest => simp [getRemoteHash.onLines, h]

theorem getRemoteHash_loop_eq {P : Type} (path : PathAPI P) (id : peer.ID) (done : Nat → Bool) :
    ∀ (fuel i : Nat) (reader : bufio.Reader) (run : HashRun),
      reader.pending.length < fuel →
      getRemoteHash.loop path id done fuel i reader run
        = some (getRemoteHash.onLines path id done i (bufio.Reader.linesAux fuel reader) run) := by
  intro fuel
  induction fuel with
  | zero => intro i reader run h; exact absurd h (Nat.not_lt_zero _)
  | succ n ih =>
    intro i reader run hlen
    cases hd : done i with
    | true => simp [getRemoteHash.loop, hd, getRemoteHash_onLines_done path id done i _ run hd]
    | false =>
      cases hr : reader.ReadLine with
      | mk res reader' =>
        obtain ⟨line, more, err⟩ := res
        cases err with
        | some e => simp [getRemoteHash.loop, bufio.Reader.linesAux, hd, hr, getRemoteHash.onLines]
        | none =>
          have hlt := bufio.ReadLine_consumes reader line more reader' hr
          simp only [getRemoteHash.loop, bufio.Reader.linesAux, hd, hr, getRemoteHash.onLines]
          simpa using ih (i + 1) reader' _ (by omega)

theorem getRemoteHash_onLines_all {P : Type} (path : PathAPI P) (id : peer.ID) :
    ∀ (lines : List Bytes) (i : Nat) (run : HashRun),
      getRemoteHash.onLines path id (fun _ => false) i lines run
        = ⟨run.lines ++ lines,
            run.calls ++ (lines.map (fun line => link.UpdateHash path (path.New line) id)).flatten⟩ := by
  intro lines
  induction lines with
  | nil => intro i run; simp [getRemoteHash.onLines]
  | cons line rest ih =>
    intro i run
    simp [getRemoteHash.onLines, ih, List.append_assoc]

theorem getRemoteHash_all {P : Type} (path : PathAPI P) (id : peer.ID) (s : Bytes) :
    link.getRemoteHash path id (fun _ => false) (.ok s)
      = some ⟨(bufio.NewReader s).lines,
          ((bufio.NewReader s).lines.map
            (fun line => link.UpdateHash path (path.New line) id)).flatten⟩ := by
  unfold link.getRemoteHash
  simp only
  have h := getRemoteHash_loop_eq path id (fun _ => false) (s.length + 1) 0 (bufio.NewReader s)
    ⟨[], []⟩ (Nat.lt_succ_self _)
  rw [h, getRemoteHash_onLines_all]
  simp [bufio.Reader.lines, bufio.NewReader]

/-- C5 (amended). With the stream open and no cancellation, `getRemoteHash`
applies `UpdateHash` to `path.New(line)` for every line `ReadLine` gives, in
stream order; each application calls `hashes.Add(hash.String(), B)` and then
`pinning.AddSync(hash.String())` with that same string. When the stream is a
sequence of lines, each followed by one newline, without a newline byte, not
ending in a carriage return and shorter than 4096 bytes, the lines `ReadLine`
gives are those lines. On lines that the path library gives back unchanged
the calls are `hashes.Add(line, B)` and `pinning.AddSync(line)`. -/
theorem C5_getRemoteHash_updates_every_line {P : Type} (path : PathAPI P) (B : peer.ID)
    (s : Bytes) :
    link.getRemoteHash path B (fun _ => false) (.ok s)
        = some ⟨(bufio.NewReader s).lines,
            ((bufio.NewReader s).lines.map
              (fun line => link.UpdateHash path (path.New line) B)).flatten⟩
      ∧ (∀ hash : P, link.UpdateHash path hash B
          = [Call.hashesAdd (path.String hash) B, Call.AddSync (path.String hash)])
      ∧ (∀ lines : List Bytes,
          (∀ line ∈ lines, (∀ c ∈ line, c ≠ 10) ∧ line.getLast? ≠ some 13
            ∧ line.length < bufio.defaultBufSize) →
          s = (lines.map (fun q => q ++ NewLine)).flatten →
          link.getRemoteHash path B (fun _ => false) (.ok s)
            = some ⟨lines,
                (lines.map (fun line =>
                  [Call.hashesAdd (path.String (path.New line)) B,
                    Call.AddSync (path.String (path.New line))])).flatten⟩)
      ∧ ((∀ line ∈ (bufio.NewReader s).lines, path.String (path.New line) = line) →
          link.getRemoteHash path B (fun _ => false) (.ok s)
            = some ⟨(bufio.NewReader s).lines,
                ((bufio.NewReader s).lines.map
                  (fun line => [Call.hashesAdd line B, Call.AddSync line])).flatten⟩) := by
  refine ⟨getRemoteHash_all path B s, fun _ => rfl, ?_, ?_⟩
  · intro lines hok hs
    rw [getRemoteHash_all path B s, hs, lines_records lines hok]
    rfl
  · intro hfix
    rw [getRemoteHash_all path B s]
    congr 3
    apply List.map_congr_left
    intro line hline
    simp [link.UpdateHash, hfix line hline]

/-- C5 at the single line `cidABC` from peer `B = [66]`, which does not
parse as a path: the calls are `hashes.Add("cidABC", B)` and then
`pinning.AddSync("cidABC")`. -/
theorem C5_getRemoteHash_updates_every_line_witness :
    (∀ line ∈ ([[99, 105, 100, 65, 66, 67]] : List Bytes),
        (∀ c ∈ line, c ≠ 10) ∧ line.getLast? ≠ some 13 ∧ line.length < bufio.defaultBufSize)
      ∧ link.getRemoteHash (PathAPI.ofParsePath demoParsePath) [66] (fun _ => false)
          (.ok [99, 105, 100, 65, 66, 67, 10])
        = some ⟨[[99, 105, 100, 65, 66, 67]],
            [Call.hashesAdd [99, 105, 100, 65, 66, 67] [66],
              Call.AddSync [99, 105, 100, 65, 66, 67]]⟩ :=
  ⟨by decide,
    (C5_getRemoteHash_updates_every_line (PathAPI.ofParsePath demoParsePath) [66]
      [99, 105, 100, 65, 66, 67, 10]).2.2.1 [[99, 105, 100, 65, 66, 67]] (by decide) rfl⟩

/-- C5, as stated, fails on a line that is a bare content identifier: for the
line `demoCid` from peer `[66]`, `path.New` keeps the parsed path
`/ipfs/` followed by `demoCid`, so the hash cache records that string with
`[66]` and the pin request is for that string, not for the line. -/
theorem C5_bare_identifier_is_prefixed :
    link.getRemoteHash (PathAPI.ofParsePath demoParsePath) [66] (fun _ => false)
        (.ok (demoCid ++ [10]))
      = some ⟨[demoCid],
          [Call.hashesAdd ([47, 105, 112, 102, 115, 47] ++ demoCid) [66],
            Call.AddSync ([47, 105, 112, 102, 115, 47] ++ demoCid)]⟩
      ∧ ([47, 105, 112, 102, 115, 47] ++ demoCid : Bytes) ≠ demoCid := by
  decide

/-- C7 (amended). `getRemoteHash` makes no check of the lines it reads: with
the stream open and no cancellation it returns after the last line, and every
line that `ReadLine` gave before the first read error, whatever its content,
was passed to `hashes.Add` and to `pinning.AddSync`. -/
theorem C7_every_line_is_added {P : Type} (path : PathAPI P) (B : peer.ID) (s : Bytes) :
    ∃ run, link.getRemoteHash path B (fun _ => false) (.ok s) = some run
      ∧ run.lines = (bufio.NewReader s).lines
      ∧ ∀ line ∈ (bufio.NewReader s).lines,
          Call.hashesAdd (path.String (path.New line)) B ∈ run.calls
            ∧ Call.AddSync (path.String (path.New line)) ∈ run.calls := by
  refine ⟨_, getRemoteHash_all path B s, rfl, ?_⟩
  intro line hline
  simp only [List.mem_flatten, List.mem_map]
  exact ⟨⟨_, ⟨line, hline, rfl⟩, by simp [link.UpdateHash]⟩,
    ⟨_, ⟨line, hline, rfl⟩, by simp [link.UpdateHash]⟩⟩

/-- C7, as stated, fails on the stream `"bad!\nQm\n"` from peer `[66]`: the
line `bad!` is no content identifier, and still it and the line after it are
added to the hash cache and sent as pin requests. -/
theorem C7_malformed_line_is_added :
    link.getRemoteHash PathAPI.raw [66] (fun _ => false)
        (.ok [98, 97, 100, 33, 10, 81, 109, 10])
      = some ⟨[[98, 97, 100, 33], [81, 109]],
          [Call.hashesAdd [98, 97, 100, 33] [66], Call.AddSync [98, 97, 100, 33],
            Call.hashesAdd [81, 109] [66], Call.AddSync [81, 109]]⟩ := by
  decide

/-- C9 (amended). For every pin-set snapshot whose identifiers contain no
newline byte, do not end in a carriage return and are shorter than the
reader's buffer (4096 bytes), with no write error and no cancellation: the
lines `getRemoteHash` obtains with `ReadLine` from the bytes the hash-list
handler wrote are exactly the snapshot's identifiers, in order. -/
theorem C9_hash_lines_roundtrip {P : Type} (path : PathAPI P) (B : peer.ID) (pins : List Bytes)
    (stream : Stream) (hb : stream.budget = none) (hw : stream.written = [])
    (hok : ∀ id ∈ pins, (∀ c ∈ id, c ≠ 10) ∧ id.getLast? ≠ some 13
      ∧ id.length < bufio.defaultBufSize) :
    ∃ run, link.getRemoteHash path B (fun _ => false)
        (.ok (newLinkHashHandle pins stream).written) = some run
      ∧ run.lines = pins := by
  refine ⟨_, getRemoteHash_all path B _, ?_⟩
  simp only [newLinkHashHandle_written pins stream hb, hw, List.nil_append]
  exact linesAux_records pins _ hok (Nat.lt_succ_self _)

/-- C9 at the snapshot `["Qm", "cid"]`. -/
theorem C9_hash_lines_roundtrip_witness :
    (∀ id ∈ ([[81, 109], [99, 105, 100]] : List Bytes),
        (∀ c ∈ id, c ≠ 10) ∧ id.getLast? ≠ some 13 ∧ id.length < bufio.defaultBufSize)
      ∧ ∃ run, link.getRemoteHash PathAPI.raw [66] (fun _ => false)
          (.ok (newLinkHashHandle [[81, 109], [99, 105, 100]] ⟨[65], [4, 1], [], none⟩).written)
            = some run
        ∧ run.lines = [[81, 109], [99, 105, 100]] :=
  ⟨by decide, C9_hash_lines_roundtrip PathAPI.raw [66] [[81, 109], [99, 105, 100]]
    ⟨[65], [4, 1], [], none⟩ rfl rfl (by decide)⟩

/-- C9, as stated, fails on the snapshot whose one identifier is `"a\r"` (no
newline byte in it): the handler writes `"a\r\n"` and `ReadLine` gives the
line `"a"`, one byte short. -/
theorem C9_carriage_return_is_dropped :
    (∀ c ∈ ([97, 13] : Bytes), c ≠ 10)
      ∧ (newLinkHashHandle [[97, 13]] ⟨[65], [4, 1], [], none⟩).written = [97, 13, 10]
      ∧ (link.getRemoteHash PathAPI.raw [66] (fun _ => false)
          (.ok (newLinkHashHandle [[97, 13]] ⟨[65], [4, 1], [], none⟩).written)).map HashRun.lines
        = some [[97]] := by
  decide

/-! ### The peer list -/

theorem getRemotePeerAddress_onLines_done {C : Type} (cache : PeerCacheAPI C)
    (unmarshal : UnmarshalJSON) (done : Nat → Bool) (env : Nat → Env) (i : Nat)
    (lines : List Bytes) (l : link C) (calls : List Call) (h : done i = true) :
    getRemotePeerAddress.onLines cache unmarshal done env i lines l calls = (calls, l) := by
  cases lines with
  | nil => rfl
  | cons line rest => simp [getRemotePeerAddress.onLines, h]

theorem getRemotePeerAddress_loop_eq {C : Type} (cache : PeerCacheAPI C)
    (unmarshal : UnmarshalJSON) (done : Nat → Bool) (env : Nat → Env) :
    ∀ (fuel i : Nat) (reader : bufio.Reader) (l : link C) (calls : List Call),
      reader.pending.length < fuel →
      getRemotePeerAddress.loop cache unmarshal done env fuel i reader l calls
        = some (getRemotePeerAddress.onLines cache unmarshal done env i
            (bufio.Reader.linesAux fuel reader) l calls) := by
  intro fuel
  induction fuel with
  | zero => intro i reader l calls h; exact absurd h (Nat.not_lt_zero _)
  | succ n ih =>
    intro i reader l calls hlen
    cases hd : done i with
    | true =>
      simp [getRemotePeerAddress.loop, hd,
        getRemotePeerAddress_onLines_done cache unmarshal done env i _ l calls hd]
    | false =>
      cases hr : reader.ReadLine with
      | mk res reader' =>
        obtain ⟨line, more, err⟩ := res
        cases err with
        | some e =>
          simp [getRemotePeerAddress.loop, bufio.Reader.linesAux, hd, hr,
            getRemotePeerAddress.onLines]
        | none =>
          have hlt := bufio.ReadLine_consumes reader line more reader' hr
          have hn : reader'.pending.length < n := by omega
          simp only [getRemotePeerAddress.loop, bufio.Reader.linesAux, hd, hr,
            getRemotePeerAddress.onLines]
          cases hu : unmarshal peer.AddrInfo.zero line with
          | none => simp
          | some ai =>
            by_cases hid : ai.ID = l.Identity
            · simp only [hid, if_true]
              exact ih (i + 1) reader' l calls hn
            · simp only [hid, if_false]
              exact ih (i + 1) reader' _ _ hn

theorem UpdatePeerAddress_Identity {C : Type} (cache : PeerCacheAPI C) (env : Env) (l : link C)
    (ai : peer.AddrInfo) : (l.UpdatePeerAddress cache env ai).2.Identity = l.Identity := by
  unfold link.UpdatePeerAddress
  cases env.NewStream with
  | none => rfl
  | some e =>
    cases env.Config with
    | error e' => rfl
    | ok m =>
      simp only []
      split
      · split
        · rfl
        · cases env.NewCoreAPI <;> cases env.Connect <;> rfl
      · rfl

theorem UpdatePeerAddress_success {C : Type} (cache : PeerCacheAPI C) (env : Env) (l : link C)
    (ai : peer.AddrInfo) (h : env.NewStream = none) :
    l.UpdatePeerAddress cache env ai = (⟨none, []⟩, l) := by
  simp [link.UpdatePeerAddress, h]

theorem UpdatePeerAddress_addresses {C : Type} (cache : PeerCacheAPI C) (env : Env) (l : link C)
    (ai : peer.AddrInfo) :
    (l.UpdatePeerAddress cache env ai).2.addresses = l.addresses
      ∨ (l.UpdatePeerAddress cache env ai).2.addresses
          = (cache.UpdatePeerAddress l.addresses ai).2 := by
  unfold link.UpdatePeerAddress
  cases env.NewStream with
  | none => exact Or.inl rfl
  | some e =>
    cases env.Config with
    | error e' => exact Or.inl rfl
    | ok m =>
      right
      simp only []
      split
      · split
        · rfl
        · cases env.NewCoreAPI <;> cases env.Connect <;> rfl
      · rfl

theorem UpdatePeerAddress_failed_addresses {C : Type} (cache : PeerCacheAPI C) (env : Env)
    (l : link C) (ai : peer.AddrInfo) (e : error) (m : Int64) (hs : env.NewStream = some e)
    (hc : env.Config = .ok m) :
    (l.UpdatePeerAddress cache env ai).2.addresses
      = (cache.UpdatePeerAddress l.addresses ai).2 := by
  unfold link.UpdatePeerAddress
  simp only [hs, hc]
  split
  · split
    · rfl
    · cases env.NewCoreAPI <;> cases env.Connect <;> rfl
  · rfl

theorem PeerCache_keeps (c : PeerCache) (ai : peer.AddrInfo) (id : peer.ID)
    (h : (c.addresses id).isSome = true) :
    ((c.UpdatePeerAddress ai).2.addresses id).isSome = true := by
  unfold PeerCache.UpdatePeerAddress
  cases hc : c.addresses ai.ID with
  | some r => exact h
  | none =>
    by_cases e : id = ai.ID
    · simp [GoMap.set, e]
    · simp [GoMap.set, e, h]

theorem PeerCache_inserts (c : PeerCache) (ai : peer.AddrInfo) :
    ((c.UpdatePeerAddress ai).2.addresses ai.ID).isSome = true := by
  unfold PeerCache.UpdatePeerAddress
  cases hc : c.addresses ai.ID with
  | some r => simp [hc]
  | none => simp [GoMap.set]

theorem UpdatePeerAddress_keeps (env : Env) (l : link PeerCache) (ai : peer.AddrInfo)
    (id : peer.ID) (h : (l.addresses.addresses id).isSome = true) :
    ((l.UpdatePeerAddress PeerCache.api env ai).2.addresses.addresses id).isSome = true := by
  rcases UpdatePeerAddress_addresses PeerCache.api env l ai with h' | h'
  · rw [h']; exact h
  · rw [h']; exact PeerCache_keeps l.addresses ai id h

theorem onLines_keeps (unmarshal : UnmarshalJSON) (done : Nat → Bool) (env : Nat → Env)
    (id : peer.ID) :
    ∀ (lines : List Bytes) (i : Nat) (l : link PeerCache) (calls : List Call),
      (l.addresses.addresses id).isSome = true →
      ((getRemotePeerAddress.onLines PeerCache.api unmarshal done env i lines l
        calls).2.addresses.addresses id).isSome = true := by
  intro lines
  induction lines with
  | nil => intro i l calls h; exact h
  | cons line rest ih =>
    intro i l calls h
    simp only [getRemotePeerAddress.onLines]
    split
    · exact h
    · split
      · exact h
      · split
        · exact ih _ _ _ h
        · exact ih _ _ _ (UpdatePeerAddress_keeps _ l _ id h)

theorem onLines_reaches (unmarshal : UnmarshalJSON) (done : Nat → Bool) (env : Nat → Env)
    (lineC : Bytes) (aiC : peer.AddrInfo) (post : List Bytes)
    (hC : unmarshal peer.AddrInfo.zero lineC = some aiC) :
    ∀ (pre : List Bytes) (i : Nat) (l : link PeerCache) (calls : List Call),
      (∀ line ∈ pre, (unmarshal peer.AddrInfo.zero line).isSome = true) →
      (∀ k, k ≤ pre.length → done (i + k) = false) →
      aiC.ID ≠ l.Identity →
      (∃ e, (env (i + pre.length)).NewStream = some e) →
      (∃ m, (env (i + pre.length)).Config = .ok m) →
      ((getRemotePeerAddress.onLines PeerCache.api unmarshal done env i (pre ++ lineC :: post) l
        calls).2.addresses.addresses aiC.ID).isSome = true := by
  intro pre
  induction pre with
  | nil =>
    intro i l calls _ hdone hself hs hc
    obtain ⟨e, hs⟩ := hs
    obtain ⟨m, hc⟩ := hc
    have hd : done i = false := by simpa using hdone 0 (Nat.le_refl _)
    simp only [List.nil_append, getRemotePeerAddress.onLines, hd, hC, List.length_nil,
      Nat.add_zero] at hs hc ⊢
    simp only [hself, if_false, Bool.false_eq_true]
    apply onLines_keeps
    rw [UpdatePeerAddress_failed_addresses PeerCache.api _ l aiC e m hs hc]
    exact PeerCache_inserts l.addresses aiC
  | cons line rest ih =>
    intro i l calls hpre hdone hself hs hc
    have hd : done i = false := by simpa using hdone 0 (Nat.zero_le _)
    have hdone' : ∀ k, k ≤ rest.length → done (i + 1 + k) = false := by
      intro k hk
      have := hdone (k + 1) (by simpa using hk)
      rwa [show i + 1 + k = i + (k + 1) by omega]
    have hidx : i + (line :: rest).length = i + 1 + rest.length := by
      simp only [List.length_cons]; omega
    rw [hidx] at hs hc
    have hrest : ∀ q ∈ rest, (unmarshal peer.AddrInfo.zero q).isSome = true :=
      fun q hq => hpre q (List.mem_cons_of_mem _ hq)
    have hline := hpre line (List.mem_cons_self _ _)
    cases hu : unmarshal peer.AddrInfo.zero line with
    | none => rw [hu] at hline; exact Bool.noConfusion hline
    | some ai =>
      simp only [List.cons_append, getRemotePeerAddress.onLines, hd, hu, Bool.false_eq_true,
        if_false]
      split
      · exact ih (i + 1) l calls hrest hdone' hself hs hc
      · apply ih (i + 1) _ _ hrest hdone' _ hs hc
        rw [UpdatePeerAddress_Identity]
        exact hself

theorem getRemotePeerAddress_reaches (unmarshal : UnmarshalJSON) (done : Nat → Bool)
    (env : Nat → Env) (l : link PeerCache) (s : Bytes) (pre post : List Bytes) (lineC : Bytes)
    (aiC : peer.AddrInfo) (e : error) (m : Int64)
    (hlines : (bufio.NewReader s).lines = pre ++ lineC :: post)
    (hpre : ∀ line ∈ pre, (unmarshal peer.AddrInfo.zero line).isSome = true)
    (hC : unmarshal peer.AddrInfo.zero lineC = some aiC) (hself : aiC.ID ≠ l.Identity)
    (hdone : ∀ k, k ≤ pre.length → done k = false)
    (hstream : (env pre.length).NewStream = some e)
    (hcfg : (env pre.length).Config = .ok m) :
    ∃ calls l', l.getRemotePeerAddress PeerCache.api unmarshal done env (.ok s)
        = some (calls, l')
      ∧ (l'.addresses.addresses aiC.ID).isSome = true := by
  have hloop := getRemotePeerAddress_loop_eq PeerCache.api unmarshal done env (s.length + 1) 0
    (bufio.NewReader s) l [] (Nat.lt_succ_self _)
  have hl : bufio.Reader.linesAux (s.length + 1) (bufio.NewReader s) = pre ++ lineC :: post :=
    hlines
  rw [hl] at hloop
  refine ⟨_, _, hloop, ?_⟩
  apply onLines_reaches unmarshal done env lineC aiC post hC pre 0 l [] hpre
  · intro k hk; simpa using hdone k hk
  · exact hself
  · exact ⟨e, by simpa using hstream⟩
  · exact ⟨m, by simpa using hcfg⟩

/-- C6 (amended). Let the response A receives be a sequence of lines, each
followed by one newline, then the line of a record for a peer C and a
newline, then any bytes; let these lines (the record's included) have no
newline byte, not end in a carriage return and be shorter than 4096 bytes;
let every line before the record decode, the record decode to an identity
other than A's own, and the context not be cancelled before the record is
read. If the direct stream open to C inside `UpdatePeerAddress` fails and the
configuration loads, then after `getRemotePeerAddress` has processed the
response A's cache (the spec's `AddIfAbsent` cache) has an entry for C. If the
direct stream open succeeds, `UpdatePeerAddress` returns nil and leaves the
cache as it was. -/
theorem C6_record_reaches_cache (unmarshal : UnmarshalJSON) (done : Nat → Bool)
    (env : Nat → Env) (l : link PeerCache) (pre : List Bytes) (lineC tail : Bytes)
    (aiC : peer.AddrInfo) (e : error) (m : Int64)
    (hwire : ∀ q ∈ pre ++ [lineC], (∀ c ∈ q, c ≠ 10) ∧ q.getLast? ≠ some 13
      ∧ q.length < bufio.defaultBufSize)
    (hpre : ∀ line ∈ pre, (unmarshal peer.AddrInfo.zero line).isSome = true)
    (hC : unmarshal peer.AddrInfo.zero lineC = some aiC) (hself : aiC.ID ≠ l.Identity)
    (hdone : ∀ k, k ≤ pre.length → done k = false)
    (hstream : (env pre.length).NewStream = some e)
    (hcfg : (env pre.length).Config = .ok m) :
    (∃ calls l', l.getRemotePeerAddress PeerCache.api unmarshal done env
          (.ok ((pre.map (fun q => q ++ NewLine)).flatten ++ (lineC ++ NewLine ++ tail)))
          = some (calls, l')
        ∧ (l'.addresses.addresses aiC.ID).isSome = true)
      ∧ (∀ (env' : Env) (l' : link PeerCache) (ai : peer.AddrInfo), env'.NewStream = none →
          l'.UpdatePeerAddress PeerCache.api env' ai = (⟨none, []⟩, l')) := by
  refine ⟨?_, fun env' l' ai h => UpdatePeerAddress_success PeerCache.api env' l' ai h⟩
  have hbytes : (pre.map (fun q => q ++ NewLine)).flatten ++ (lineC ++ NewLine ++ tail)
      = ((pre ++ [lineC]).map (fun q => q ++ NewLine)).flatten ++ tail := by
    simp [List.append_assoc]
  have hlines : (bufio.NewReader
      ((pre.map (fun q => q ++ NewLine)).flatten ++ (lineC ++ NewLine ++ tail))).lines
        = pre ++ lineC :: (bufio.NewReader tail).lines := by
    rw [hbytes, lines_records_tail tail (pre ++ [lineC]) hwire]
    simp [List.append_assoc]
  exact getRemotePeerAddress_reaches unmarshal done env l _ pre _ lineC aiC e m hlines hpre hC
    hself hdone hstream hcfg

/-- C6 at the response `[3, 5, '\n', 2, 4, 1, '\n', 9]`: a record for peer
`[3]`, then the record for peer `[2]`, then one more byte; every direct
stream open fails. -/
theorem C6_record_reaches_cache_witness :
    (∀ q ∈ ([[3, 5]] : List Bytes) ++ [[2, 4, 1]], (∀ c ∈ q, c ≠ 10) ∧ q.getLast? ≠ some 13
        ∧ q.length < bufio.defaultBufSize)
      ∧ (∀ line ∈ ([[3, 5]] : List Bytes),
          (demoUnmarshalJSON peer.AddrInfo.zero line).isSome = true)
      ∧ demoUnmarshalJSON peer.AddrInfo.zero [2, 4, 1] = some ⟨[2], [[4, 1]]⟩
      ∧ ∃ calls l', (New [7] NewAddress).getRemotePeerAddress PeerCache.api demoUnmarshalJSON
            (fun _ => false) (fun _ => demoEnv 0) (.ok [3, 5, 10, 2, 4, 1, 10, 9])
            = some (calls, l')
          ∧ (l'.addresses.addresses [2]).isSome = true :=
  ⟨by decide, by decide, rfl,
    (C6_record_reaches_cache demoUnmarshalJSON (fun _ => false) (fun _ => demoEnv 0)
      (New [7] NewAddress) [[3, 5]] [2, 4, 1] [9] ⟨[2], [[4, 1]]⟩ (error.foreign "dial")
      (Int64.ofInt 0) (by decide) (by decide) rfl (by decide)
      (fun _ _ => rfl) rfl rfl).1⟩

/-- C6, as stated, fails when the direct stream open succeeds: A (identity
`[7]`, empty cache) receives the response `[2, 4, 1, '\n']`, a record for
peer `[2]`; the stream open to `[2]` succeeds; `getRemotePeerAddress` returns
without a call on a collaborator and A's cache has no entry for `[2]`. -/
theorem C6_reachable_peer_is_not_cached :
    demoUnmarshalJSON peer.AddrInfo.zero [2, 4, 1] = some ⟨[2], [[4, 1]]⟩
      ∧ ((New [7] NewAddress).getRemotePeerAddress PeerCache.api demoUnmarshalJSON
          (fun _ => false) (fun _ => { demoEnv 0 with NewStream := none })
          (.ok [2, 4, 1, 10])).map (fun r => (r.1, r.2.addresses.addresses [2]))
        = some ([], none) := by
  decide

end linker
